import Mathlib

/-!
Verification of the go-cms plugin subsystem (internal/plugins:
extractor.go, compiler.go, loader.go, manager.go).

Go strings in the extractor's path logic are modelled as lists of
characters; the other components use Lean `String` directly.  All
definitions are transcribed from the repository's source.
-/

set_option maxRecDepth 4000

namespace GoCms

/-! ## Path model (extractor.go)

`filepath.Clean` and `filepath.Join` as used by `Extractor.extractFile`,
modelled over `List Char` (a Go string is its byte/char sequence; the
path separator on the supported platforms is the single char '/').
-/

/-- A Go path string, as its character sequence. -/
abbrev GoStr := List Char

/-- Split a path on the separator '/', the behaviour of
`strings.Split(s, "/")` for a one-char separator. -/
def splitSlash : GoStr → List GoStr
  | [] => [[]]
  | c :: rest =>
    if c = '/' then [] :: splitSlash rest
    else
      match splitSlash rest with
      | [] => [[c]]
      | seg :: segs => (c :: seg) :: segs

/-- Join segments with the separator '/'. -/
def joinSlash : List GoStr → GoStr
  | [] => []
  | [s] => s
  | s :: rest => s ++ '/' :: joinSlash rest

/-- Whether a path begins with the separator (a rooted path). -/
def isAbsPath (s : GoStr) : Bool :=
  match s with
  | c :: _ => c = '/'
  | [] => false

/-- One step of the lexical cleaning loop of `filepath.Clean`: drop empty
and "." elements, let ".." erase the preceding element when that element
exists and is not itself "..", drop ".." at the root of a rooted path,
and keep leading ".." elements of a relative path.  The accumulator holds
the output elements in reverse order. -/
def cleanStep (abs : Bool) (acc : List GoStr) (seg : GoStr) : List GoStr :=
  if seg.isEmpty || seg = ['.'] then acc
  else if seg = ['.', '.'] then
    match acc with
    | [] => if abs then [] else [['.', '.']]
    | top :: pre => if top = ['.', '.'] then ['.', '.'] :: top :: pre else pre
  else seg :: acc

/-- Run the cleaning loop over all elements (output in reverse order). -/
def cleanCore (abs : Bool) (acc : List GoStr) (segs : List GoStr) : List GoStr :=
  segs.foldl (cleanStep abs) acc

/-- The path elements of `filepath.Clean s`, in order. -/
def cleanSegsOf (s : GoStr) : List GoStr :=
  (cleanCore (isAbsPath s) [] (splitSlash s)).reverse

/-- Render cleaned elements back to a path: a rooted path keeps its
leading '/', an empty relative result is ".". -/
def renderPath (abs : Bool) (segs : List GoStr) : GoStr :=
  if abs then '/' :: joinSlash segs
  else if segs.isEmpty then ['.']
  else joinSlash segs

/-- `filepath.Clean` (extractor.go line 54). -/
def goClean (s : GoStr) : GoStr :=
  renderPath (isAbsPath s) (cleanSegsOf s)

/-- `filepath.Join(a, b)` (extractor.go line 59): join the non-empty
elements with '/' and clean the result. -/
def goJoin (a b : GoStr) : GoStr :=
  if a.isEmpty && b.isEmpty then []
  else if a.isEmpty then goClean b
  else if b.isEmpty then goClean a
  else goClean (a ++ '/' :: b)

/-- Whether a char sequence starts with "..". -/
def startsDotDot : GoStr → Bool
  | '.' :: '.' :: _ => true
  | _ => false

/-- `strings.Contains(s, "..")` (extractor.go line 55): some suffix of
`s` starts with "..". -/
def hasDotDot : GoStr → Bool
  | [] => false
  | c :: rest => startsDotDot (c :: rest) || hasDotDot rest

/-- A path element that is parent-directory traversal free and not a
no-op: non-empty, not ".", not "..", and without a separator. -/
def plainSeg (s : GoStr) : Bool :=
  !s.isEmpty && s ≠ ['.'] && s ≠ ['.', '.'] && '/' ∉ s

/-- The cleaned relative path of `s` contains a parent-directory ".."
element. -/
def hasParentSegment (s : GoStr) : Bool :=
  (cleanSegsOf s).contains ['.', '.']

/-- A well-formed target directory: a non-empty relative path made of
plain elements only (the extractor's target `filepath.Join(basePluginDir,
pluginName)` has this shape, e.g. "plugins/demo"). -/
def cleanRelDir (d : GoStr) : Bool :=
  (splitSlash d).all plainSeg

/-- Outcome of `Extractor.extractFile` for one archive entry: the path
check either rejects the entry or the entry's content is written to
the computed destination path. -/
inductive ExtractOutcome where
  | rejected (msg : GoStr)
  | written (dest : GoStr)
  deriving DecidableEq, Repr

/-- `Extractor.extractFile` (extractor.go lines 52-88), the path logic:
clean the entry name, reject when the cleaned path contains "..",
otherwise write to `filepath.Join(destDir, cleanPath)`. -/
def extractFile (entryName destDir : GoStr) : ExtractOutcome :=
  let cleanPath := goClean entryName
  if hasDotDot cleanPath then
    .rejected (('i' :: 'n' :: 'v' :: 'a' :: 'l' :: 'i' :: 'd' :: ' ' :: []) ++ entryName)
  else .written (goJoin destDir cleanPath)

/-- `Extractor.ExtractZipPlugin` (extractor.go lines 24-50), the loop
over the archive entries: the first failing entry aborts the whole
extraction with an error naming that entry. -/
def extractEntries (destDir : GoStr) : List GoStr → Except GoStr (List GoStr)
  | [] => .ok []
  | n :: rest =>
    match extractFile n destDir with
    | .rejected msg => .error msg
    | .written d =>
      match extractEntries destDir rest with
      | .error e => .error e
      | .ok ds => .ok (d :: ds)

/-- Whether an extraction outcome is a rejection. -/
def isRejected : ExtractOutcome → Bool
  | .rejected _ => true
  | .written _ => false

/-- Whether a whole-archive extraction failed. -/
def isErrorE (r : Except GoStr (List GoStr)) : Bool :=
  match r with
  | .error _ => true
  | .ok _ => false

/-! ## Compiler cache model (compiler.go)

`Compiler.CompileWithCache` and `Compiler.needsRecompilation` over a
snapshot of the relevant filesystem facts: the compiled artifact's
modification time (`os.Stat` of the output file) and the files seen by
`filepath.Walk` over the plugin source directory, each with its path and
modification time (times as naturals). -/

/-- A file met by the walk over the plugin source directory. -/
structure SrcFile where
  path : String
  mtime : Nat
  deriving DecidableEq, Repr

/-- The filesystem facts `CompileWithCache` consults. -/
structure CacheFS where
  soMTime : Option Nat
  files : List SrcFile
  deriving DecidableEq, Repr

/-- The suffix test of `needsRecompilation` (compiler.go line 142):
paths ending in ".go", "go.mod" or "go.sum" are relevant to
compilation. -/
def relevantFile (p : String) : Bool :=
  p.endsWith ".go" || p.endsWith "go.mod" || p.endsWith "go.sum"

/-- `Compiler.needsRecompilation` (compiler.go lines 133-153): true when
some walked file is relevant and has a modification time strictly after
the artifact's.  (The source's `filepath.SkipDir` early stop only cuts
the walk short after the flag is already set, so the result equals this
scan of all walked files.) -/
def needsRecompilation (files : List SrcFile) (targetTime : Nat) : Bool :=
  files.any fun f => relevantFile f.path && targetTime < f.mtime

/-- Result of `CompileWithCache`: the artifact path handed back, the
recompiled flag returned to the caller, and whether the external
toolchain (`CompilePlugin`) was invoked. -/
structure CacheResult where
  path : String
  recompiled : Bool
  invoked : Bool
  deriving DecidableEq, Repr

/-- `Compiler.CompileWithCache` (compiler.go lines 106-130): compile
when the output file is absent or some relevant source file is newer,
otherwise return the existing output and signal "not recompiled". -/
def compileWithCacheFS (buildDir pluginName : String) (fs : CacheFS) : CacheResult :=
  let outputFile := buildDir ++ "/" ++ pluginName ++ ".so"
  match fs.soMTime with
  | none => { path := outputFile, recompiled := true, invoked := true }
  | some t =>
    if needsRecompilation fs.files t then
      { path := outputFile, recompiled := true, invoked := true }
    else
      { path := outputFile, recompiled := false, invoked := false }

/-! ## Zip pre-flight validation model (loader.go)

`Loader.ValidateZipPlugin` over the path and the `os.Stat` outcome
(`none` when the stat fails, `some size` otherwise). -/

/-- The transient validation value (loader.go lines 389-393). -/
structure PluginValidationResult where
  isValid : Bool
  errors : List String
  warnings : List String
  deriving DecidableEq, Repr

/-- ASCII lower-casing of one character (`strings.ToLower` acts
per character; file extensions are ASCII). -/
def asciiLower (c : Char) : Char :=
  if 'A' ≤ c && c ≤ 'Z' then Char.ofNat (c.toNat + 32) else c

/-- The extension test of loader.go line 249: the lower-cased path must
end in ".zip". -/
def hasZipExt (p : String) : Bool :=
  ['.', 'z', 'i', 'p'].isSuffixOf (p.data.map asciiLower)

/-- `Loader.ValidateZipPlugin` (loader.go lines 241-278). -/
def validateZipPlugin (zipPath : String) (statSize : Option Nat) : PluginValidationResult :=
  if !hasZipExt zipPath then
    { isValid := false, errors := ["File must be a .zip archive"], warnings := [] }
  else
    match statSize with
    | none =>
      { isValid := false, errors := ["Cannot access file"], warnings := [] }
    | some sz =>
      if sz > 100 * 1024 * 1024 then
        { isValid := false, errors := ["Plugin file too large (max 100MB)"], warnings := [] }
      else if sz = 0 then
        { isValid := false, errors := ["Plugin file is empty"], warnings := [] }
      else
        { isValid := true, errors := [], warnings := [] }

/-! ## Platform gate model (loader.go)

`Loader.LoadPluginFromFile` instrumented with the externally visible
operations it performs (filesystem stat, dynamic module open), as a
function of the host operating system. -/

/-- Operations `LoadPluginFromFile` can perform on the module path. -/
inductive LoadOp where
  | statFile (p : String)
  | openModule (p : String)
  deriving DecidableEq, Repr

/-- The fixed allow-list of loader.go lines 348-355. -/
def supportedOSList : List String := ["linux", "darwin", "freebsd"]

/-- `Loader.isPluginSupported` (loader.go lines 348-355). -/
def isPluginSupported (goos : String) : Bool :=
  supportedOSList.contains goos

/-- Outcomes of the fallible steps of `LoadPluginFromFile` after the
platform gate (file present, `plugin.Open` result, symbol lookup, type
check, constructor result). -/
structure LoadEnv where
  fileExists : Bool := true
  openOk : Bool := true
  symbolOk : Bool := true
  typeOk : Bool := true
  ctorNonNil : Bool := true
  deriving DecidableEq, Repr

/-- `Loader.LoadPluginFromFile` (loader.go lines 84-124): the platform
check comes before every other operation; the returned list records the
filesystem/dynamic-load operations performed, in order. -/
def loadPluginFromFile (goos path : String) (env : LoadEnv) :
    Except String Unit × List LoadOp :=
  if !isPluginSupported goos then
    (.error ("plugins are not supported on " ++ goos), [])
  else if !env.fileExists then
    (.error ("plugin file not found: " ++ path), [.statFile path])
  else if !env.openOk then
    (.error ("failed to open plugin " ++ path), [.statFile path, .openModule path])
  else if !env.symbolOk then
    (.error "plugin must export NewPlugin", [.statFile path, .openModule path])
  else if !env.typeOk then
    (.error "NewPlugin must be a function that returns Plugin", [.statFile path, .openModule path])
  else if !env.ctorNonNil then
    (.error "NewPlugin returned nil", [.statFile path, .openModule path])
  else
    (.ok (), [.statFile path, .openModule path])

/-! ## Manager / Loader lifecycle model (manager.go, loader.go)

The install / load / unload / reload pipeline as a state machine.  The
state tracks the extracted source directories (each with the newest
modification time of its files), the compiled artifacts in the build
directory (with their modification times), the Manager's registry
(`m.plugins`: name to instance, instances identified by allocation
numbers) and `m.pluginPaths`, a counter for fresh instance allocation, a
monotone clock stamping filesystem writes, and the list of observable
filesystem / plugin-lifecycle events performed so far.

Outcomes of the external, fallible steps (toolchain, dynamic loading,
plugin code) are supplied by an environment record. -/

/-- Observable events of the pipeline. -/
inductive MEv where
  | extract (name : String)
  | removeSrcDir (name : String)
  | removeArtifact (name : String)
  | toolchain (name : String)
  | shutdown (name : String) (id : Nat)
  | openModule (name : String)
  | removeZip (path : String)
  deriving DecidableEq, Repr

/-- Whether a lifecycle event is a plugin shutdown. -/
def isShutdownEv : MEv → Bool
  | .shutdown _ _ => true
  | _ => false

/-- Errors of the pipeline, one per failure site. -/
inductive MErr where
  | invalidZip
  | alreadyInstalled
  | extractFailed
  | badStructure
  | compileFailed
  | artifactInvalid
  | soLoadFailed
  | dirLoadFailed
  | initFailed
  | notFound (name : String)
  | dirMissing (name : String)
  | alreadyLoaded (name : String)
  deriving DecidableEq, Repr

/-- The shared mutable state of the subsystem. -/
structure MState where
  srcDirs : List (String × Nat) := []
  artifacts : List (String × Nat) := []
  registry : List (String × Nat) := []
  pluginPaths : List (String × String) := []
  nextId : Nat := 0
  clock : Nat := 0
  events : List MEv := []
  deriving DecidableEq, Repr

/-- Outcomes of the external steps, and the name each freshly
constructed instance reports via `GetInfo()`. -/
structure Env where
  extractOk : Bool := true
  structureOk : Bool := true
  compileOk : Bool := true
  artifactOk : Bool := true
  soLoadOk : Bool := true
  dirLoadOk : Bool := true
  depsSet : Bool := true
  initOk : Bool := true
  infoName : String → String := id

/-- Remove a key from an association list (a Go map delete). -/
def eraseKey (k : String) (l : List (String × α)) : List (String × α) :=
  l.filter fun p => p.1 ≠ k

/-- Look a key up in an association list (a Go map read). -/
def lookupKey (k : String) : List (String × α) → Option α
  | [] => none
  | p :: rest => if p.1 = k then some p.2 else lookupKey k rest

/-- `Extractor.ExtractZipPlugin` (extractor.go lines 24-50) at the
lifecycle level: remove any pre-existing directory for the name, create
a fresh one and extract into it (files stamped with the current clock);
an extraction failure leaves the directory behind (the extractor does
not clean up, its caller does). -/
def extractZipPluginM (env : Env) (name : String) (st : MState) :
    Except MErr Unit × MState :=
  let st' := { st with
    srcDirs := (name, st.clock) :: eraseKey name st.srcDirs,
    clock := st.clock + 1,
    events := st.events ++ [.extract name] }
  if env.extractOk then (.ok (), st') else (.error .extractFailed, st')

/-- `Compiler.CompilePlugin` (compiler.go lines 25-64): delete any
existing artifact, invoke the toolchain; on success the fresh artifact
carries the current clock. -/
def compilePluginM (env : Env) (name : String) (st : MState) :
    Except MErr Unit × MState :=
  let st' := { st with
    artifacts := eraseKey name st.artifacts,
    events := st.events ++ [.removeArtifact name, .toolchain name] }
  if env.compileOk then
    (.ok (), { st' with
      artifacts := (name, st'.clock) :: st'.artifacts,
      clock := st'.clock + 1 })
  else (.error .compileFailed, st')

/-- `Compiler.CompileWithCache` (compiler.go lines 106-130) at the
lifecycle level, with the per-directory newest source time standing for
the walk of `needsRecompilation`: compile when the artifact is absent or
older than the sources, otherwise reuse it with no toolchain call. -/
def compileWithCacheM (env : Env) (name : String) (st : MState) :
    Except MErr Bool × MState :=
  match lookupKey name st.artifacts with
  | none =>
    match compilePluginM env name st with
    | (.ok _, st') => (.ok true, st')
    | (.error e, st') => (.error e, st')
  | some artTime =>
    let srcTime := (lookupKey name st.srcDirs).getD 0
    if artTime < srcTime then
      match compilePluginM env name st with
      | (.ok _, st') => (.ok true, st')
      | (.error e, st') => (.error e, st')
    else (.ok false, st)

/-- `Loader.InstallFromZip` (loader.go lines 35-81): extract, validate
structure, compile with cache, validate the artifact, load the compiled
module; each failure after extraction removes the extracted directory
(and, from artifact validation on, the artifact), and success deletes
the uploaded archive. -/
def installFromZipM (env : Env) (zipPath name : String) (st : MState) :
    Except MErr Unit × MState :=
  match extractZipPluginM env name st with
  | (.error e, st1) => (.error e, st1)
  | (.ok _, st1) =>
    if !env.structureOk then
      (.error .badStructure, { st1 with
        srcDirs := eraseKey name st1.srcDirs,
        events := st1.events ++ [.removeSrcDir name] })
    else
      match compileWithCacheM env name st1 with
      | (.error e, st2) =>
        (.error e, { st2 with
          srcDirs := eraseKey name st2.srcDirs,
          events := st2.events ++ [.removeSrcDir name] })
      | (.ok _recompiled, st2) =>
        if !env.artifactOk then
          (.error .artifactInvalid, { st2 with
            srcDirs := eraseKey name st2.srcDirs,
            artifacts := eraseKey name st2.artifacts,
            events := st2.events ++ [.removeSrcDir name, .removeArtifact name] })
        else if !env.soLoadOk then
          (.error .soLoadFailed, { st2 with
            srcDirs := eraseKey name st2.srcDirs,
            artifacts := eraseKey name st2.artifacts,
            events := st2.events ++ [.removeSrcDir name, .removeArtifact name] })
        else
          (.ok (), { st2 with
            events := st2.events ++ [.openModule name, .removeZip zipPath] })

/-- `Loader.LoadPluginFromDirectory` (loader.go lines 127-143): require
the source directory, compile with cache, open the module and construct
a fresh instance (a new allocation number). -/
def loadPluginFromDirectoryM (env : Env) (name : String) (st : MState) :
    Except MErr Nat × MState :=
  if (lookupKey name st.srcDirs).isNone then (.error (.dirMissing name), st)
  else
    match compileWithCacheM env name st with
    | (.error e, st1) => (.error e, st1)
    | (.ok _, st1) =>
      if !env.dirLoadOk then (.error .dirLoadFailed, st1)
      else
        (.ok st1.nextId, { st1 with
          nextId := st1.nextId + 1,
          events := st1.events ++ [.openModule name] })

/-- `Loader.UninstallPlugin` (loader.go lines 314-331): remove the
plugin's source directory and compiled artifact. -/
def loaderUninstallM (name : String) (st : MState) : MState :=
  { st with
    srcDirs := eraseKey name st.srcDirs,
    artifacts := eraseKey name st.artifacts,
    events := st.events ++ [.removeSrcDir name, .removeArtifact name] }

/-- `Manager.InstallPluginFromZip` (manager.go lines 41-92): pre-flight
archive validation, already-installed check, `Loader.InstallFromZip`,
`Loader.LoadPluginFromDirectory`, dependency initialization, then the
registry insertion under the instance's reported name. -/
def installPluginFromZipM (env : Env) (zipPath name : String)
    (statSize : Option Nat) (st : MState) : Except MErr Unit × MState :=
  if !(validateZipPlugin zipPath statSize).isValid then (.error .invalidZip, st)
  else if (lookupKey name st.registry).isSome then (.error .alreadyInstalled, st)
  else
    match installFromZipM env zipPath name st with
    | (.error e, st1) => (.error e, st1)
    | (.ok _, st1) =>
      match loadPluginFromDirectoryM env name st1 with
      | (.error e, st2) => (.error e, st2)
      | (.ok instId, st2) =>
        if env.depsSet && !env.initOk then
          (.error .initFailed, loaderUninstallM name st2)
        else
          let rname := env.infoName name
          (.ok (), { st2 with
            registry := (rname, instId) :: st2.registry,
            pluginPaths := (rname, name) :: st2.pluginPaths })

/-- `Manager.LoadPlugin` (manager.go lines 125-159). -/
def loadPluginM (env : Env) (name : String) (st : MState) :
    Except MErr Unit × MState :=
  if (lookupKey name st.registry).isSome then (.error (.alreadyLoaded name), st)
  else
    match loadPluginFromDirectoryM env name st with
    | (.error e, st1) => (.error e, st1)
    | (.ok instId, st1) =>
      if env.depsSet && !env.initOk then (.error .initFailed, st1)
      else
        let rname := env.infoName name
        (.ok (), { st1 with
          registry := (rname, instId) :: st1.registry,
          pluginPaths := (rname, name) :: st1.pluginPaths })

/-- `Manager.UnloadPlugin` (manager.go lines 162-187): look the entry
up, call its shutdown once (errors only logged), delete both map
entries. -/
def unloadPluginM (name : String) (st : MState) : Except MErr Unit × MState :=
  match lookupKey name st.registry with
  | none => (.error (.notFound name), st)
  | some instId =>
    (.ok (), { st with
      registry := eraseKey name st.registry,
      pluginPaths := eraseKey name st.pluginPaths,
      events := st.events ++ [.shutdown name instId] })

/-- `Loader.RecompilePlugin` (loader.go lines 333-344): delete the
existing artifact to force recompilation, then `CompilePlugin`. -/
def recompilePluginM (env : Env) (name : String) (st : MState) :
    Except MErr Unit × MState :=
  let st' := { st with
    artifacts := eraseKey name st.artifacts,
    events := st.events ++ [.removeArtifact name] }
  compilePluginM env name st'

/-- `Manager.ReloadPlugin` (manager.go lines 208-230): read the stored
path, unload, force recompilation, load again. -/
def reloadPluginM (env : Env) (name : String) (st : MState) :
    Except MErr Unit × MState :=
  match lookupKey name st.pluginPaths with
  | none => (.error (.notFound name), st)
  | some path =>
    match unloadPluginM name st with
    | (.error e, st1) => (.error e, st1)
    | (.ok _, st1) =>
      match recompilePluginM env path st1 with
      | (.error e, st2) => (.error e, st2)
      | (.ok _, st2) => loadPluginM env path st2

/-- Well-formedness of a state: every registered instance number was
allocated, and every stored modification time is in the past. -/
def WellFormed (st : MState) : Prop :=
  (∀ p ∈ st.registry, p.2 < st.nextId) ∧
  (∀ p ∈ st.srcDirs, p.2 < st.clock) ∧
  (∀ p ∈ st.artifacts, p.2 < st.clock)

instance (st : MState) : Decidable (WellFormed st) := by
  unfold WellFormed; infer_instance

/-! ## Locking model (manager.go)

Two views of `m.mu`, the Manager's single `sync.RWMutex`.

First, lock-event traces: each Manager method is transcribed as the
sequence of lock operations and outgoing Extractor/Compiler/Loader/
plugin calls it performs, as laid out in its source, with the branch
conditions as parameters.  A method holds the exclusive lock for its
entire duration exactly when its trace is one exclusive acquire, then
only outgoing calls, then one release.

Second, blocking semantics for `HotReload`: Go's `sync.RWMutex` is not
reentrant, so acquiring the exclusive lock while the same goroutine
already holds it blocks forever.  Acquisition attempts are modelled in
`Option`, `none` meaning the operation never returns. -/

/-- Lock operations and outgoing calls of a Manager method. -/
inductive LEv where
  | lockEx
  | unlockEx
  | lockSh
  | unlockSh
  | callOut (who : String)
  deriving DecidableEq, Repr

/-- Whether an event is an outgoing call (no lock activity). -/
def isCallOut : LEv → Bool
  | .callOut _ => true
  | _ => false

/-- The trace is a single full-duration exclusive critical section:
one exclusive acquire first, one release last, and nothing but outgoing
calls in between. -/
def serializedTrace (tr : List LEv) : Bool :=
  match tr with
  | .lockEx :: rest =>
    !rest.isEmpty && rest.dropLast.all isCallOut &&
      (rest.getLast? == some .unlockEx)
  | _ => false

/-- Lock trace of `Manager.InstallPluginFromZip` (manager.go lines
41-92): `m.mu.Lock()` on entry, released by defer on every branch. -/
def installTrace (valid already installOk loadOk depsSet initOk : Bool) : List LEv :=
  [.lockEx, .callOut "ValidateZipPlugin"] ++
    (if !valid then []
     else if already then []
     else
       [.callOut "InstallFromZip"] ++
         (if !installOk then []
          else
            [.callOut "LoadPluginFromDirectory"] ++
              (if !loadOk then []
               else
                 (if depsSet then
                    [.callOut "Initialize"] ++
                      (if !initOk then [.callOut "loader.UninstallPlugin"] else [])
                  else []) ++
                   (if depsSet && !initOk then [] else [.callOut "RegisterRoutes"])))) ++
    [.unlockEx]

/-- Lock trace of `Manager.LoadPlugin` (manager.go lines 125-159). -/
def loadPluginTrace (already loadOk depsSet : Bool) : List LEv :=
  [.lockEx] ++
    (if already then []
     else
       [.callOut "LoadPluginFromDirectory"] ++
         (if !loadOk then []
          else (if depsSet then [.callOut "Initialize"] else []) ++
            [.callOut "RegisterRoutes"])) ++
    [.unlockEx]

/-- Lock trace of `Manager.LoadPlugins` (manager.go lines 95-122):
one bulk loader call, then an initialization per returned plugin. -/
def loadPluginsTrace (returned : Nat) : List LEv :=
  [.lockEx, .callOut "LoadAllPlugins"] ++
    List.replicate returned (.callOut "Initialize") ++ [.unlockEx]

/-- Lock trace of `Manager.UnloadPlugin` (manager.go lines 162-187). -/
def unloadTrace (found : Bool) : List LEv :=
  [.lockEx] ++ (if found then [.callOut "Shutdown"] else []) ++ [.unlockEx]

/-- Lock trace of `Manager.UninstallPlugin` (manager.go lines 190-205):
no lock of its own; the nested `UnloadPlugin` locks, and the
`loader.UninstallPlugin` filesystem removal runs outside any lock. -/
def uninstallTrace (loaded : Bool) : List LEv :=
  (if loaded then unloadTrace true else []) ++ [.callOut "loader.UninstallPlugin"]

/-- Lock trace of `Manager.ReloadPlugin` (manager.go lines 208-230): a
shared-lock path lookup, then the nested `UnloadPlugin` (its own lock),
then `loader.RecompilePlugin` outside any lock, then the nested
`LoadPlugin` (its own lock). -/
def reloadTrace (found : Bool) (recompileOk : Bool)
    (already loadOk depsSet : Bool) : List LEv :=
  [.lockSh, .unlockSh] ++
    (if !found then []
     else
       unloadTrace true ++ [.callOut "RecompilePlugin"] ++
         (if !recompileOk then [] else loadPluginTrace already loadOk depsSet))

/-- State for the blocking semantics: whether this goroutine already
holds `m.mu` exclusively, and the registry's names. -/
structure LState where
  lockHeld : Bool
  registry : List String
  deriving DecidableEq, Repr

/-- `Manager.UnloadPlugin` under blocking semantics: `m.mu.Lock()`
blocks forever when the caller already holds the exclusive lock. -/
def unloadPluginL (name : String) (st : LState) : Option LState :=
  if st.lockHeld then none
  else some { st with registry := st.registry.erase name }

/-- `Manager.LoadPlugins` under blocking semantics: same entry lock;
on return the registry has gained the loadable plugins. -/
def loadPluginsL (loadable : List String) (st : LState) : Option LState :=
  if st.lockHeld then none
  else some { st with registry := st.registry ∪ loadable }

/-- `Manager.HotReload` (manager.go lines 370-397) under blocking
semantics: take `m.mu.Lock()`, then call `UnloadPlugin` for every
registered name, then `LoadPlugins` — each nested call re-acquires the
already-held exclusive lock. -/
def hotReloadL (loadable : List String) (st : LState) : Option LState :=
  if st.lockHeld then none
  else
    let held : LState := { st with lockHeld := true }
    match held.registry.foldlM (fun s n => unloadPluginL n s) held with
    | none => none
    | some st1 =>
      match loadPluginsL loadable st1 with
      | none => none
      | some st2 => some { st2 with lockHeld := false }

/-! ## Registry-copy model (manager.go GetAllPlugins)

`Manager.GetAllPlugins` (manager.go lines 242-252) returns a freshly
allocated Go map holding a copy of the registry's entries.  Go maps are
reference values, so the model uses an explicit heap of map cells
(association lists) addressed by index; allocation appends a cell. -/

/-- A heap of map cells. -/
structure MapHeap where
  cells : List (List (String × Nat))
  deriving DecidableEq, Repr

/-- Read a map cell. -/
def readRef (h : MapHeap) (r : Nat) : List (String × Nat) :=
  (h.cells[r]?).getD []

/-- Allocate a fresh map holding a copy of the cell at `src`
(`make` plus the copying loop of manager.go lines 247-250). -/
def allocCopy (h : MapHeap) (src : Nat) : Nat × MapHeap :=
  (h.cells.length, { cells := h.cells ++ [readRef h src] })

/-- Overwrite a map cell. -/
def writeRef (h : MapHeap) (r : Nat) (content : List (String × Nat)) : MapHeap :=
  { cells := h.cells.set r content }

/-- Insert a key into the map at `r` (a Go map assignment). -/
def mapInsertRef (h : MapHeap) (r : Nat) (k : String) (v : Nat) : MapHeap :=
  writeRef h r ((k, v) :: eraseKey k (readRef h r))

/-- Delete a key from the map at `r` (a Go map delete). -/
def mapDeleteRef (h : MapHeap) (r : Nat) (k : String) : MapHeap :=
  writeRef h r (eraseKey k (readRef h r))

/-- A Manager whose `m.plugins` map lives in the heap. -/
structure MgrRef where
  heap : MapHeap
  registryRef : Nat
  deriving DecidableEq, Repr

/-- `Manager.GetAllPlugins` (manager.go lines 242-252): allocate a new
map, copy every registry entry into it, and return it; the registry
reference itself is not handed out. -/
def getAllPlugins (m : MgrRef) : Nat × MapHeap :=
  allocCopy m.heap m.registryRef

/-! ## Association-list helper lemmas -/

theorem eraseKey_cons_eq {α : Type} (k : String) (p : String × α)
    (rest : List (String × α)) (h : p.1 = k) :
    eraseKey k (p :: rest) = eraseKey k rest := by
  simp [eraseKey, List.filter_cons, h]

theorem eraseKey_cons_ne {α : Type} (k : String) (p : String × α)
    (rest : List (String × α)) (h : ¬p.1 = k) :
    eraseKey k (p :: rest) = p :: eraseKey k rest := by
  simp [eraseKey, List.filter_cons, h]

theorem lookupKey_eraseKey_self {α : Type} (k : String) (l : List (String × α)) :
    lookupKey k (eraseKey k l) = none := by
  induction l with
  | nil => rfl
  | cons p rest ih =>
    by_cases h : p.1 = k
    · rw [eraseKey_cons_eq k p rest h]; exact ih
    · rw [eraseKey_cons_ne k p rest h, lookupKey]
      simp [h, ih]

theorem lookupKey_eraseKey_ne {α : Type} (k k' : String) (l : List (String × α))
    (h : k' ≠ k) : lookupKey k' (eraseKey k l) = lookupKey k' l := by
  induction l with
  | nil => rfl
  | cons p rest ih =>
    by_cases hp : p.1 = k
    · rw [eraseKey_cons_eq k p rest hp]
      have hpk : ¬p.1 = k' := by rw [hp]; exact fun hc => h hc.symm
      rw [ih, lookupKey]
      simp [hpk]
    · rw [eraseKey_cons_ne k p rest hp]
      by_cases hq : p.1 = k'
      · simp [lookupKey, hq]
      · simp [lookupKey, hq, ih]

/-! ## Path lemmas for the extractor -/

theorem joinSlash_cons₂ (s r : GoStr) (rs : List GoStr) :
    joinSlash (s :: r :: rs) = s ++ '/' :: joinSlash (r :: rs) := rfl

theorem hasDotDot_append (xs ys : GoStr) (h : hasDotDot ys = true) :
    hasDotDot (xs ++ ys) = true := by
  induction xs with
  | nil => simpa using h
  | cons c rest ih =>
    rw [List.cons_append, hasDotDot]
    simp [ih]

theorem hasDotDot_cons_dotdot (xs : GoStr) :
    hasDotDot ('.' :: '.' :: xs) = true := by
  rw [hasDotDot]
  simp [startsDotDot]

theorem hasDotDot_join_of_mem :
    ∀ segs : List GoStr, ['.', '.'] ∈ segs →
      hasDotDot (joinSlash segs) = true := by
  intro segs
  induction segs with
  | nil => intro h; cases h
  | cons s rest ih =>
    intro h
    rcases List.mem_cons.mp h with h | h
    · subst h
      cases rest with
      | nil => decide
      | cons r rs =>
        rw [joinSlash_cons₂]
        exact hasDotDot_cons_dotdot _
    · cases rest with
      | nil => cases h
      | cons r rs =>
        rw [joinSlash_cons₂]
        refine hasDotDot_append s _ ?_
        rw [hasDotDot]
        simp [startsDotDot, ih h]

theorem hasDotDot_goClean_of_parentSeg (s : GoStr)
    (h : hasParentSegment s = true) : hasDotDot (goClean s) = true := by
  have hmem : ['.', '.'] ∈ cleanSegsOf s := by
    simpa [hasParentSegment, List.contains] using h
  unfold goClean renderPath
  by_cases habs : isAbsPath s
  · simp only [habs, if_true]
    rw [hasDotDot]
    simp [startsDotDot, hasDotDot_join_of_mem _ hmem]
  · have hne : (cleanSegsOf s).isEmpty = false := by
      cases hc : cleanSegsOf s with
      | nil => rw [hc] at hmem; cases hmem
      | cons a l => simp
    simp only [habs, if_false, hne, Bool.false_eq_true]
    simp [hasDotDot_join_of_mem _ hmem]

theorem splitSlash_ne_nil (s : GoStr) : splitSlash s ≠ [] := by
  cases s with
  | nil => simp [splitSlash]
  | cons c rest =>
    by_cases hc : c = '/'
    · simp [splitSlash, hc]
    · cases hs : splitSlash rest with
      | nil => simp [splitSlash, hc, hs]
      | cons seg segs => simp [splitSlash, hc, hs]

theorem mem_splitSlash_no_slash :
    ∀ (s seg : GoStr), seg ∈ splitSlash s → '/' ∉ seg := by
  intro s
  induction s with
  | nil =>
    intro seg h
    simp [splitSlash] at h
    subst h; simp
  | cons c rest ih =>
    intro seg h
    by_cases hc : c = '/'
    · simp only [splitSlash, hc, if_true] at h
      rcases List.mem_cons.mp h with h | h
      · subst h; simp
      · exact ih seg h
    · cases hs : splitSlash rest with
      | nil => exact absurd hs (splitSlash_ne_nil rest)
      | cons s0 ss =>
        simp only [splitSlash, hc, if_false, hs] at h
        rcases List.mem_cons.mp h with h | h
        · subst h
          intro hin
          rcases List.mem_cons.mp hin with h1 | h1
          · exact hc h1.symm
          · have hm : s0 ∈ splitSlash rest := by
              rw [hs]; exact List.mem_cons_self _ _
            exact ih s0 hm h1
        · have hm : seg ∈ splitSlash rest := by
            rw [hs]; exact List.mem_cons_of_mem _ h
          exact ih seg hm

theorem joinSlash_splitSlash (s : GoStr) : joinSlash (splitSlash s) = s := by
  induction s with
  | nil => rfl
  | cons c rest ih =>
    by_cases hc : c = '/'
    · subst hc
      show joinSlash (splitSlash ('/' :: rest)) = '/' :: rest
      have hsplit : splitSlash ('/' :: rest) = [] :: splitSlash rest := by
        simp [splitSlash]
      rw [hsplit]
      cases hs : splitSlash rest with
      | nil => exact absurd hs (splitSlash_ne_nil rest)
      | cons s0 ss =>
        rw [joinSlash_cons₂, List.nil_append, ← hs, ih]
    · cases hs : splitSlash rest with
      | nil => exact absurd hs (splitSlash_ne_nil rest)
      | cons s0 ss =>
        cases ss with
        | nil =>
          have h0 : s0 = rest := by
            have := ih
            rw [hs] at this
            simpa [joinSlash] using this
          simp [splitSlash, hc, hs, joinSlash, h0]
        | cons s1 ss1 =>
          show joinSlash (splitSlash (c :: rest)) = c :: rest
          simp only [splitSlash, hc, if_false, hs, joinSlash_cons₂]
          rw [List.cons_append]
          rw [← joinSlash_cons₂, ← hs, ih]

theorem splitSlash_no_slash_single (a : GoStr) (ha : '/' ∉ a) :
    splitSlash a = [a] := by
  induction a with
  | nil => rfl
  | cons c a' ih =>
    have hc : ¬c = '/' := fun h => ha (h ▸ List.mem_cons_self _ _)
    have ha' : '/' ∉ a' := fun h => ha (List.mem_cons_of_mem _ h)
    simp [splitSlash, hc, ih ha']

theorem splitSlash_append_sep (a b : GoStr) (ha : '/' ∉ a) :
    splitSlash (a ++ '/' :: b) = a :: splitSlash b := by
  induction a with
  | nil => simp [splitSlash]
  | cons c a' ih =>
    have hc : ¬c = '/' := fun h => ha (h ▸ List.mem_cons_self _ _)
    have ha' : '/' ∉ a' := fun h => ha (List.mem_cons_of_mem _ h)
    simp [splitSlash, hc, ih ha']

theorem splitSlash_joinSlash (segs : List GoStr)
    (h : ∀ s ∈ segs, '/' ∉ s) (hne : segs ≠ []) :
    splitSlash (joinSlash segs) = segs := by
  induction segs with
  | nil => exact absurd rfl hne
  | cons d ds ih =>
    cases ds with
    | nil =>
      simpa [joinSlash] using
        splitSlash_no_slash_single d (h d (List.mem_cons_self _ _))
    | cons d1 ds1 =>
      rw [joinSlash_cons₂, splitSlash_append_sep d _ (h d (List.mem_cons_self _ _))]
      rw [ih (fun s hs => h s (List.mem_cons_of_mem _ hs)) (by simp)]

theorem splitSlash_join_append (dsegs : List GoStr) (b : GoStr)
    (hd : ∀ s ∈ dsegs, '/' ∉ s) (hne : dsegs ≠ []) :
    splitSlash (joinSlash dsegs ++ '/' :: b) = dsegs ++ splitSlash b := by
  induction dsegs with
  | nil => exact absurd rfl hne
  | cons d ds ih =>
    cases ds with
    | nil =>
      simpa [joinSlash] using
        splitSlash_append_sep d b (hd d (List.mem_cons_self _ _))
    | cons d1 ds1 =>
      rw [joinSlash_cons₂, List.cons_append, List.append_assoc, List.cons_append]
      rw [splitSlash_append_sep d _ (hd d (List.mem_cons_self _ _))]
      rw [ih (fun s hs => hd s (List.mem_cons_of_mem _ hs)) (by simp)]

theorem joinSlash_append (as bs : List GoStr) (ha : as ≠ []) (hb : bs ≠ []) :
    joinSlash (as ++ bs) = joinSlash as ++ '/' :: joinSlash bs := by
  induction as with
  | nil => exact absurd rfl ha
  | cons a as' ih =>
    cases as' with
    | nil =>
      cases bs with
      | nil => exact absurd rfl hb
      | cons b bs' => simp [joinSlash_cons₂, joinSlash]
    | cons a1 as1 =>
      have h1 : (a :: a1 :: as1) ++ bs = a :: ((a1 :: as1) ++ bs) := rfl
      have h2 : (a1 :: as1) ++ bs = a1 :: (as1 ++ bs) := rfl
      rw [h1, h2, joinSlash_cons₂, ← h2, ih (by simp), joinSlash_cons₂]
      simp [List.append_assoc]

theorem plainSeg_eq_true (s : GoStr) :
    plainSeg s = true ↔ s ≠ [] ∧ s ≠ ['.'] ∧ s ≠ ['.', '.'] ∧ '/' ∉ s := by
  cases s with
  | nil => simp [plainSeg]
  | cons c cs =>
    simp [plainSeg, and_assoc]
    tauto

theorem cleanStep_plain (abs : Bool) (acc : List GoStr) (s : GoStr)
    (h1 : s ≠ []) (h2 : s ≠ ['.']) (h3 : s ≠ ['.', '.']) :
    cleanStep abs acc s = s :: acc := by
  have he : s.isEmpty = false := by
    cases s with
    | nil => exact absurd rfl h1
    | cons c cs => rfl
  simp [cleanStep, he, h2, h3]

theorem cleanCore_cons (abs : Bool) (acc : List GoStr) (s : GoStr)
    (rest : List GoStr) :
    cleanCore abs acc (s :: rest) = cleanCore abs (cleanStep abs acc s) rest := rfl

theorem cleanCore_append (abs : Bool) (acc : List GoStr) (xs ys : List GoStr) :
    cleanCore abs acc (xs ++ ys) = cleanCore abs (cleanCore abs acc xs) ys := by
  simp [cleanCore, List.foldl_append]

theorem cleanCore_plain (abs : Bool) :
    ∀ (ys acc : List GoStr), (∀ s ∈ ys, plainSeg s = true) →
      cleanCore abs acc ys = ys.reverse ++ acc := by
  intro ys
  induction ys with
  | nil => intro acc _; simp [cleanCore]
  | cons s rest ih =>
    intro acc h
    have hs := (plainSeg_eq_true s).mp (h s (List.mem_cons_self _ _))
    rw [cleanCore_cons, cleanStep_plain abs acc s hs.1 hs.2.1 hs.2.2.1]
    rw [ih (s :: acc) (fun x hx => h x (List.mem_cons_of_mem _ hx))]
    simp

theorem cleanStep_mem (abs : Bool) (acc : List GoStr) (s x : GoStr)
    (h : x ∈ cleanStep abs acc s) : x ∈ acc ∨ x = s := by
  unfold cleanStep at h
  by_cases hc1 : (s.isEmpty || decide (s = ['.'])) = true
  · rw [if_pos hc1] at h
    exact Or.inl h
  · rw [if_neg hc1] at h
    by_cases hdd : s = ['.', '.']
    · rw [if_pos hdd] at h
      cases acc with
      | nil =>
        cases habs : abs with
        | true => simp [habs] at h
        | false =>
          simp [habs] at h
          exact Or.inr (h.trans hdd.symm)
      | cons top pre =>
        by_cases htop : top = ['.', '.']
        · simp only [htop, if_pos rfl] at h
          rcases List.mem_cons.mp h with h | h
          · exact Or.inr (h.trans hdd.symm)
          · exact Or.inl (htop ▸ h)
        · have h' : x ∈ pre := by simpa [htop] using h
          exact Or.inl (List.mem_cons_of_mem _ h')
    · rw [if_neg hdd] at h
      rcases List.mem_cons.mp h with h | h
      · exact Or.inr h
      · exact Or.inl h

theorem cleanCore_mem (abs : Bool) :
    ∀ (xs acc : List GoStr) (x : GoStr),
      x ∈ cleanCore abs acc xs → x ∈ acc ∨ x ∈ xs := by
  intro xs
  induction xs with
  | nil => intro acc x h; exact Or.inl h
  | cons s rest ih =>
    intro acc x h
    rw [cleanCore_cons] at h
    rcases ih (cleanStep abs acc s) x h with h1 | h1
    · rcases cleanStep_mem abs acc s x h1 with h2 | h2
      · exact Or.inl h2
      · refine Or.inr ?_
        rw [h2]
        exact List.mem_cons_self _ _
    · exact Or.inr (List.mem_cons_of_mem _ h1)

theorem cleanStep_inv (abs : Bool) (acc : List GoStr) (s : GoStr)
    (hacc : ∀ y ∈ acc, y ≠ [] ∧ y ≠ ['.']) :
    ∀ y ∈ cleanStep abs acc s, y ≠ [] ∧ y ≠ ['.'] := by
  intro y hy
  unfold cleanStep at hy
  by_cases hc1 : (s.isEmpty || decide (s = ['.'])) = true
  · rw [if_pos hc1] at hy
    exact hacc y hy
  · rw [if_neg hc1] at hy
    by_cases hdd : s = ['.', '.']
    · rw [if_pos hdd] at hy
      cases acc with
      | nil =>
        cases habs : abs with
        | true => simp [habs] at hy
        | false =>
          simp [habs] at hy
          subst hy
          exact ⟨by simp, by simp⟩
      | cons top pre =>
        by_cases htop : top = ['.', '.']
        · simp only [htop, if_pos rfl] at hy
          rcases List.mem_cons.mp hy with h | h
          · subst h
            exact ⟨by simp, by simp⟩
          · exact hacc y (htop ▸ h)
        · have hy' : y ∈ pre := by simpa [htop] using hy
          exact hacc y (List.mem_cons_of_mem _ hy')
    · rw [if_neg hdd] at hy
      rcases List.mem_cons.mp hy with h | h
      · have hc1' : s.isEmpty = false ∧ ¬s = ['.'] := by
          simpa [not_or] using hc1
        rw [h]
        refine ⟨?_, hc1'.2⟩
        intro hnil
        rw [hnil] at hc1'
        simp at hc1'
      · exact hacc y h

theorem cleanCore_inv (abs : Bool) :
    ∀ (xs acc : List GoStr),
      (∀ y ∈ acc, y ≠ [] ∧ y ≠ ['.']) →
      ∀ y ∈ cleanCore abs acc xs, y ≠ [] ∧ y ≠ ['.'] := by
  intro xs
  induction xs with
  | nil => intro acc hacc y hy; exact hacc y hy
  | cons s rest ih =>
    intro acc hacc y hy
    rw [cleanCore_cons] at hy
    exact ih _ (cleanStep_inv abs acc s hacc) y hy

theorem mem_cleanSegsOf_good (s x : GoStr) (hx : x ∈ cleanSegsOf s) :
    x ≠ [] ∧ x ≠ ['.'] := by
  have hx' : x ∈ cleanCore (isAbsPath s) [] (splitSlash s) := by
    rw [cleanSegsOf, List.mem_reverse] at hx
    exact hx
  exact cleanCore_inv (isAbsPath s) (splitSlash s) [] (by simp) x hx'

theorem cleanSegsOf_plain (s : GoStr) (hnd : hasDotDot (goClean s) = false) :
    ∀ x ∈ cleanSegsOf s, plainSeg x = true := by
  intro x hx
  have hx' : x ∈ cleanCore (isAbsPath s) [] (splitSlash s) := by
    rw [cleanSegsOf, List.mem_reverse] at hx
    exact hx
  have h1 := mem_cleanSegsOf_good s x hx
  have h2 : x ≠ ['.', '.'] := by
    intro hdd
    subst hdd
    have hps : hasParentSegment s = true := by
      simp [hasParentSegment, List.contains]
      exact hx
    rw [hasDotDot_goClean_of_parentSeg s hps] at hnd
    cases hnd
  have h3 : '/' ∉ x := by
    rcases cleanCore_mem (isAbsPath s) (splitSlash s) [] x hx' with h | h
    · cases h
    · exact mem_splitSlash_no_slash s x h
  rw [plainSeg_eq_true]
  exact ⟨h1.1, h1.2, h2, h3⟩

theorem goClean_ne_nil (s : GoStr) : goClean s ≠ [] := by
  unfold goClean renderPath
  by_cases habs : isAbsPath s = true
  · simp [habs]
  · have habs' : isAbsPath s = false := by simpa using habs
    cases hc : cleanSegsOf s with
    | nil => simp [habs', hc]
    | cons x xs =>
      have hx : x ≠ [] ∧ x ≠ ['.'] :=
        mem_cleanSegsOf_good s x (by rw [hc]; exact List.mem_cons_self _ _)
      simp only [habs', Bool.false_eq_true, if_false, hc, List.isEmpty_cons]
      cases xs with
      | nil => simpa [joinSlash] using hx.1
      | cons x1 xs1 =>
        rw [joinSlash_cons₂]
        cases hxx : x with
        | nil => exact absurd hxx hx.1
        | cons c cs => simp

theorem goClean_of_rel (X : GoStr) (habs : isAbsPath X = false) :
    goClean X = renderPath false ((cleanCore false [] (splitSlash X)).reverse) := by
  unfold goClean cleanSegsOf
  rw [habs]

theorem extractFile_written_prefix (destDir name dest : GoStr)
    (hd : cleanRelDir destDir = true)
    (h : extractFile name destDir = .written dest) :
    dest = destDir ∨ destDir ++ ['/'] <+: dest := by
  unfold extractFile at h
  by_cases hnd : hasDotDot (goClean name) = true
  · simp [hnd] at h
  · have hnd' : hasDotDot (goClean name) = false := by simpa using hnd
    simp only [hnd', Bool.false_eq_true, if_false, ExtractOutcome.written.injEq] at h
    subst h
    have hplain : ∀ s ∈ splitSlash destDir, plainSeg s = true := by
      simpa [cleanRelDir, List.all_eq_true] using hd
    have hdnoslash : ∀ s ∈ splitSlash destDir, '/' ∉ s :=
      fun s hs => ((plainSeg_eq_true s).mp (hplain s hs)).2.2.2
    have hdne : splitSlash destDir ≠ [] := splitSlash_ne_nil destDir
    have hjs : joinSlash (splitSlash destDir) = destDir := joinSlash_splitSlash destDir
    have hdnonempty : destDir ≠ [] := by
      intro h0
      have hmem : ([] : GoStr) ∈ splitSlash destDir := by
        rw [h0]
        exact List.mem_cons_self _ _
      have hpx := hplain [] hmem
      rw [plainSeg_eq_true] at hpx
      exact hpx.1 rfl
    have hdhead : ∃ c cs, destDir = c :: cs ∧ c ≠ '/' := by
      cases hdd : destDir with
      | nil => exact absurd hdd hdnonempty
      | cons c cs =>
        refine ⟨c, cs, rfl, ?_⟩
        intro hc
        subst hc
        have hmem : ([] : GoStr) ∈ splitSlash destDir := by
          rw [hdd]
          simp [splitSlash]
        have hpx := hplain [] hmem
        rw [plainSeg_eq_true] at hpx
        exact hpx.1 rfl
    have hp : goClean name = renderPath (isAbsPath name) (cleanSegsOf name) := rfl
    have hppl : ∀ x ∈ cleanSegsOf name, plainSeg x = true :=
      cleanSegsOf_plain name hnd'
    have hpnoslash : ∀ x ∈ cleanSegsOf name, '/' ∉ x :=
      fun x hx => ((plainSeg_eq_true x).mp (hppl x hx)).2.2.2
    have hpne : goClean name ≠ [] := goClean_ne_nil name
    have hdie : destDir.isEmpty = false := by
      cases hdd : destDir with
      | nil => exact absurd hdd hdnonempty
      | cons _ _ => rfl
    have hpie : (goClean name).isEmpty = false := by
      cases hpp : goClean name with
      | nil => exact absurd hpp hpne
      | cons _ _ => rfl
    have hjoin : goJoin destDir (goClean name) =
        goClean (destDir ++ '/' :: goClean name) := by
      unfold goJoin
      simp [hdie, hpie]
    rw [hjoin]
    obtain ⟨c0, cs0, hdd0, hc0⟩ := hdhead
    have habs2 : isAbsPath (destDir ++ '/' :: goClean name) = false := by
      rw [hdd0]
      simp [isAbsPath, hc0]
    have hsplit2 : splitSlash (destDir ++ '/' :: goClean name) =
        splitSlash destDir ++ splitSlash (goClean name) := by
      conv_lhs => rw [← hjs]
      exact splitSlash_join_append _ _ hdnoslash hdne
    have hdest : goClean (destDir ++ '/' :: goClean name) =
        renderPath false ((cleanCore false ((splitSlash destDir).reverse)
          (splitSlash (goClean name))).reverse) := by
      rw [goClean_of_rel _ habs2, hsplit2, cleanCore_append,
        cleanCore_plain false (splitSlash destDir) [] hplain]
      simp
    have hfin_dir : renderPath false (((splitSlash destDir).reverse).reverse) =
        destDir := by
      rw [List.reverse_reverse]
      have hie : (splitSlash destDir).isEmpty = false := by
        cases hh : splitSlash destDir with
        | nil => exact absurd hh hdne
        | cons _ _ => rfl
      simp [renderPath, hie, hjs]
    have hstep_nil : cleanStep false ((splitSlash destDir).reverse) [] =
        (splitSlash destDir).reverse := by
      simp [cleanStep]
    have hfin_pref : ∀ (x : GoStr) (xs : List GoStr),
        cleanSegsOf name = x :: xs →
        renderPath false ((cleanCore false ((splitSlash destDir).reverse)
            (cleanSegsOf name)).reverse) =
          destDir ++ '/' :: joinSlash (cleanSegsOf name) := by
      intro x xs hxs
      rw [cleanCore_plain false (cleanSegsOf name) _ hppl]
      rw [List.reverse_append, List.reverse_reverse, List.reverse_reverse]
      have hie : (splitSlash destDir ++ cleanSegsOf name).isEmpty = false := by
        cases hh : splitSlash destDir with
        | nil => exact absurd hh hdne
        | cons _ _ => rfl
      rw [renderPath]
      simp only [Bool.false_eq_true, if_false, hie]
      rw [joinSlash_append _ _ hdne (by rw [hxs]; simp), hjs]
    by_cases hpa : isAbsPath name = true
    · have hpform : goClean name = '/' :: joinSlash (cleanSegsOf name) := by
        rw [hp]
        simp [renderPath, hpa]
      cases hps : cleanSegsOf name with
      | nil =>
        have hpval : goClean name = ['/'] := by
          rw [hpform, hps]
          rfl
        left
        rw [hdest]
        have hsp : splitSlash (goClean name) = [[], []] := by
          rw [hpval]
          rfl
        rw [hsp]
        have hcc : cleanCore false ((splitSlash destDir).reverse) [[], []] =
            (splitSlash destDir).reverse := by
          simp [cleanCore, cleanStep]
        rw [hcc]
        exact hfin_dir
      | cons x xs =>
        right
        rw [hdest]
        have hsp : splitSlash (goClean name) = [] :: cleanSegsOf name := by
          rw [hpform]
          have h1 : splitSlash ('/' :: joinSlash (cleanSegsOf name)) =
              [] :: splitSlash (joinSlash (cleanSegsOf name)) := by
            simp [splitSlash]
          rw [h1, splitSlash_joinSlash (cleanSegsOf name) hpnoslash
            (by rw [hps]; simp)]
        rw [hsp, cleanCore_cons, hstep_nil, hfin_pref x xs hps]
        exact ⟨joinSlash (cleanSegsOf name), by simp⟩
    · have hpa' : isAbsPath name = false := by simpa using hpa
      cases hps : cleanSegsOf name with
      | nil =>
        have hpval : goClean name = ['.'] := by
          rw [hp]
          simp [renderPath, hpa', hps]
        left
        rw [hdest]
        have hsp : splitSlash (goClean name) = [['.']] := by
          rw [hpval]
          rfl
        rw [hsp]
        have hcc : cleanCore false ((splitSlash destDir).reverse) [['.']] =
            (splitSlash destDir).reverse := by
          simp [cleanCore, cleanStep]
        rw [hcc]
        exact hfin_dir
      | cons x xs =>
        right
        have hpform : goClean name = joinSlash (cleanSegsOf name) := by
          rw [hp]
          simp [renderPath, hpa', hps]
        rw [hdest]
        have hsp : splitSlash (goClean name) = cleanSegsOf name := by
          rw [hpform]
          exact splitSlash_joinSlash (cleanSegsOf name) hpnoslash
            (by rw [hps]; simp)
        rw [hsp, hfin_pref x xs hps]
        exact ⟨joinSlash (cleanSegsOf name), by simp⟩

theorem lookupKey_some_mem {α : Type} {k : String} {v : α} :
    ∀ {l : List (String × α)}, lookupKey k l = some v → (k, v) ∈ l := by
  intro l
  induction l with
  | nil => intro h; cases h
  | cons p rest ih =>
    intro h
    rw [lookupKey] at h
    by_cases hp : p.1 = k
    · simp only [hp, if_true] at h
      have hv : p.2 = v := by injection h
      have hpkv : p = (k, v) := by
        cases p; cases hp; cases hv; rfl
      rw [← hpkv]
      exact List.mem_cons_self p rest
    · simp only [hp, if_false] at h
      exact List.mem_cons_of_mem _ (ih h)

/-! ## Claim theorems -/

/-- C1 counterexample: with every step succeeding except the Manager's
load of the installed plugin (`LoadPluginFromDirectory`, manager.go
lines 66-69), `InstallPluginFromZip` on a fresh state returns an error
yet leaves the extracted source directory and the compiled artifact on
disk — the claimed rollback does not happen for this enumerated step. -/
theorem C1_rollback_counterexample :
    (installPluginFromZipM { dirLoadOk := false } "demo.zip" "demo"
        (some 1000) {}).1 = .error .dirLoadFailed ∧
      lookupKey "demo" (installPluginFromZipM { dirLoadOk := false } "demo.zip"
        "demo" (some 1000) {}).2.srcDirs = some 0 ∧
      lookupKey "demo" (installPluginFromZipM { dirLoadOk := false } "demo.zip"
        "demo" (some 1000) {}).2.artifacts = some 1 :=
  ⟨rfl, rfl, rfl⟩

/-- C1 (amended): for a valid archive and a fresh name, every failure of
plugin-structure validation, compilation, artifact validation, loading
the compiled module, or dependency initialization rolls the installation
back — the extracted source directory and the compiled artifact are
deleted and the registry is unchanged; a failure of the manager-level
load of the installed plugin is excluded (it leaves the files on disk),
though no failure of any step ever adds a registry entry. -/
theorem C1_rollback_amended (env : Env) (zipPath name : String)
    (statSize : Option Nat) (st : MState)
    (hv : (validateZipPlugin zipPath statSize).isValid = true)
    (hreg : lookupKey name st.registry = none)
    (hart : lookupKey name st.artifacts = none)
    (hex : env.extractOk = true) :
    (∀ e st', env.dirLoadOk = true →
      installPluginFromZipM env zipPath name statSize st = (.error e, st') →
      lookupKey name st'.srcDirs = none ∧ lookupKey name st'.artifacts = none ∧
        st'.registry = st.registry) ∧
    (∀ e st',
      installPluginFromZipM env zipPath name statSize st = (.error e, st') →
      st'.registry = st.registry) := by
  have hclock : ¬(st.clock + 1 < st.clock) := by omega
  obtain ⟨eex, est, eco, ear, eso, edl, eds, ein, einfo⟩ := env
  replace hex : eex = true := hex
  subst hex
  constructor
  · intro e st' hdl h
    replace hdl : edl = true := hdl
    subst hdl
    cases est <;> cases eco <;> cases ear <;> cases eso <;> cases eds <;> cases ein <;>
        simp [installPluginFromZipM, installFromZipM, extractZipPluginM,
          compileWithCacheM, compilePluginM, loadPluginFromDirectoryM,
          loaderUninstallM, hv, hreg, hart, hclock, lookupKey] at h <;>
      (obtain ⟨he, hst⟩ := h; subst hst;
        exact ⟨by simp [lookupKey_eraseKey_self],
          by simp [lookupKey_eraseKey_self, hart], rfl⟩)
  · intro e st' h
    cases est <;> cases eco <;> cases ear <;> cases eso <;> cases edl <;>
        cases eds <;> cases ein <;>
        simp [installPluginFromZipM, installFromZipM, extractZipPluginM,
          compileWithCacheM, compilePluginM, loadPluginFromDirectoryM,
          loaderUninstallM, hv, hreg, hart, hclock, lookupKey] at h <;>
      (obtain ⟨he, hst⟩ := h; subst hst; rfl)

/-- C1 (amended) witness: concrete failing compilation on a fresh state
rolls back the source directory and artifact and keeps the registry
empty. -/
theorem C1_rollback_amended_witness :
    lookupKey "demo" (installPluginFromZipM { compileOk := false } "demo.zip"
        "demo" (some 1000) {}).2.srcDirs = none ∧
      lookupKey "demo" (installPluginFromZipM { compileOk := false } "demo.zip"
        "demo" (some 1000) {}).2.artifacts = none ∧
      (installPluginFromZipM { compileOk := false } "demo.zip"
        "demo" (some 1000) {}).2.registry = ({} : MState).registry :=
  (C1_rollback_amended { compileOk := false } "demo.zip" "demo" (some 1000) {}
      (by decide) rfl rfl rfl).1 .compileFailed _ rfl rfl

/-- C2: for every target plugin directory (a clean relative path) and
every archive entry whose cleaned relative path contains a
parent-directory ".." element, `extractFile` rejects the entry,
`ExtractZipPlugin` fails as a whole on any archive containing such an
entry, and no entry is ever written outside the target plugin directory
(every written destination is the directory itself or strictly below
it). -/
theorem C2_path_traversal (destDir : GoStr) (hd : cleanRelDir destDir = true) :
    (∀ name, hasParentSegment name = true →
      isRejected (extractFile name destDir) = true) ∧
    (∀ entries n, n ∈ entries → hasParentSegment n = true →
      isErrorE (extractEntries destDir entries) = true) ∧
    (∀ name dest, extractFile name destDir = .written dest →
      dest = destDir ∨ destDir ++ ['/'] <+: dest) := by
  have part1 : ∀ name, hasParentSegment name = true →
      isRejected (extractFile name destDir) = true := by
    intro name hn
    have hdot := hasDotDot_goClean_of_parentSeg name hn
    simp [extractFile, hdot, isRejected]
  refine ⟨part1, ?_,
    fun name dest h => extractFile_written_prefix destDir name dest hd h⟩
  intro entries
  induction entries with
  | nil => intro n hn; cases hn
  | cons e rest ih =>
    intro n hn hps
    rcases List.mem_cons.mp hn with hn | hn
    · subst hn
      have hrej := part1 n hps
      cases hext : extractFile n destDir with
      | rejected msg => simp [extractEntries, hext, isErrorE]
      | written d =>
        rw [hext] at hrej
        simp [isRejected] at hrej
    · cases hext : extractFile e destDir with
      | rejected msg => simp [extractEntries, hext, isErrorE]
      | written d =>
        have hrec := ih n hn hps
        cases hrest : extractEntries destDir rest with
        | error e2 => simp [extractEntries, hext, hrest, isErrorE]
        | ok ds =>
          rw [hrest] at hrec
          simp [isErrorE] at hrec

/-- C2 witness: with target directory "plugins/demo", the entry
"../../evil.go" is rejected, an archive containing it fails as a whole,
and "sub/main.go" is written strictly inside the target directory. -/
theorem C2_path_traversal_witness :
    isRejected (extractFile "../../evil.go".toList "plugins/demo".toList) = true ∧
      isErrorE (extractEntries "plugins/demo".toList
        ["main.go".toList, "../../evil.go".toList]) = true ∧
      ("plugins/demo/sub/main.go".toList = "plugins/demo".toList ∨
        "plugins/demo".toList ++ ['/'] <+: "plugins/demo/sub/main.go".toList) :=
  ⟨(C2_path_traversal "plugins/demo".toList (by decide)).1
      "../../evil.go".toList (by decide),
    (C2_path_traversal "plugins/demo".toList (by decide)).2.1
      ["main.go".toList, "../../evil.go".toList] "../../evil.go".toList
      (by decide) (by decide),
    (C2_path_traversal "plugins/demo".toList (by decide)).2.2
      "sub/main.go".toList "plugins/demo/sub/main.go".toList (by decide)⟩

/-- C3: `CompileWithCache(dir, name)` invokes the toolchain (recompiles)
if and only if the expected output file is absent, or some file under
the directory ending in ".go", "go.mod" or "go.sum" has a modification
time strictly after the output file's; otherwise it returns the existing
output path, signals "not recompiled" (false) to the caller, and
performs no toolchain invocation. -/
theorem C3_compile_cache (buildDir pluginName : String) (fs : CacheFS) :
    ((compileWithCacheFS buildDir pluginName fs).invoked = true ↔
      fs.soMTime = none ∨
        ∃ t f, fs.soMTime = some t ∧ f ∈ fs.files ∧
          relevantFile f.path = true ∧ t < f.mtime) ∧
    (compileWithCacheFS buildDir pluginName fs).recompiled =
      (compileWithCacheFS buildDir pluginName fs).invoked ∧
    ((compileWithCacheFS buildDir pluginName fs).invoked = false →
      (compileWithCacheFS buildDir pluginName fs).path =
          buildDir ++ "/" ++ pluginName ++ ".so" ∧
        (compileWithCacheFS buildDir pluginName fs).recompiled = false) := by
  obtain ⟨so, files⟩ := fs
  have key : ∀ t, needsRecompilation files t = true ↔
      ∃ f, f ∈ files ∧ relevantFile f.path = true ∧ t < f.mtime := by
    intro t
    simp [needsRecompilation, List.any_eq_true, Bool.and_eq_true, decide_eq_true_eq]
  cases so with
  | none =>
    refine ⟨?_, ?_, ?_⟩ <;> simp [compileWithCacheFS]
  | some t =>
    by_cases hrec : needsRecompilation files t = true
    · refine ⟨?_, ?_, ?_⟩
      · simp only [compileWithCacheFS, hrec, if_true]
        constructor
        · intro _
          rcases (key t).mp hrec with ⟨f, hf, hrel, hlt⟩
          exact Or.inr ⟨t, f, rfl, hf, hrel, hlt⟩
        · intro _; trivial
      · simp [compileWithCacheFS, hrec]
      · intro hfalse
        simp [compileWithCacheFS, hrec] at hfalse
    · have hrec' : needsRecompilation files t = false := by
        simpa using hrec
      refine ⟨?_, ?_, ?_⟩
      · simp only [compileWithCacheFS, hrec', if_false]
        constructor
        · intro hc; exact absurd hc (by simp)
        · rintro (hnone | ⟨t', f, ht', hf, hrel, hlt⟩)
          · exact absurd hnone (by simp)
          · exfalso
            have ht : t = t' := by injection ht'
            subst ht
            exact hrec ((key t).mpr ⟨f, hf, hrel, hlt⟩)
      · simp [compileWithCacheFS, hrec']
      · intro _
        constructor <;> simp [compileWithCacheFS, hrec']

/-- C3 witness: with an existing artifact at time 5 and no source files,
the cache path is taken: no invocation, existing path, "not recompiled". -/
theorem C3_compile_cache_witness :
    (compileWithCacheFS "b" "p" { soMTime := some 5, files := [] }).path = "b/p.so" ∧
      (compileWithCacheFS "b" "p" { soMTime := some 5, files := [] }).recompiled = false :=
  (C3_compile_cache "b" "p" { soMTime := some 5, files := [] }).2.2 (by decide)

/-- C4: if a plugin is already present in the registry under a given
name, a second `InstallPluginFromZip` call for that same name (with a
valid archive) fails with the already-installed error and returns the
state unchanged: the registry and the first installation's files are
untouched. -/
theorem C4_already_installed (env : Env) (zipPath name : String)
    (statSize : Option Nat) (st : MState) (instId : Nat)
    (hv : (validateZipPlugin zipPath statSize).isValid = true)
    (hreg : lookupKey name st.registry = some instId) :
    installPluginFromZipM env zipPath name statSize st =
      (.error .alreadyInstalled, st) := by
  simp [installPluginFromZipM, hv, hreg]

/-- C4 witness: a state with "demo" registered rejects a second install
of "demo" and is returned unchanged. -/
theorem C4_already_installed_witness :
    installPluginFromZipM {} "demo.zip" "demo" (some 1000)
        { registry := [("demo", 0)], pluginPaths := [("demo", "demo")],
          srcDirs := [("demo", 0)], artifacts := [("demo", 1)],
          nextId := 1, clock := 2 } =
      (.error .alreadyInstalled,
        { registry := [("demo", 0)], pluginPaths := [("demo", "demo")],
          srcDirs := [("demo", 0)], artifacts := [("demo", 1)],
          nextId := 1, clock := 2 }) :=
  C4_already_installed {} "demo.zip" "demo" (some 1000) _ 0 (by decide) (by decide)

/-- C5: for a plugin currently in the registry, a successful
`ReloadPlugin(n)` calls the old instance's shutdown exactly once,
deletes the existing compiled artifact before the toolchain runs
(bypassing the mtime cache), and leaves a registry entry whose instance
is a distinct, newly constructed object; for a name not in the registry
it returns the not-found error and an unchanged state. -/
theorem C5_reload_semantics (env : Env) (name path : String) (st : MState)
    (instId srcT : Nat)
    (hw : WellFormed st)
    (hreg : lookupKey name st.registry = some instId)
    (hpath : lookupKey name st.pluginPaths = some path)
    (hsrc : lookupKey path st.srcDirs = some srcT)
    (hclash : path = name ∨ lookupKey path st.registry = none)
    (hponame : env.infoName path = name)
    (hco : env.compileOk = true) (hdl : env.dirLoadOk = true)
    (hin : env.initOk = true) :
    (reloadPluginM env name st).1 = .ok () ∧
      ((reloadPluginM env name st).2.events.drop st.events.length).countP
        isShutdownEv = 1 ∧
      (∃ l₁ l₂, (reloadPluginM env name st).2.events.drop st.events.length =
        l₁ ++ .removeArtifact path :: l₂ ∧ .toolchain path ∈ l₂) ∧
      lookupKey name (reloadPluginM env name st).2.registry = some st.nextId ∧
      instId < st.nextId ∧
      (∀ n, lookupKey n st.pluginPaths = none →
        reloadPluginM env n st = (.error (.notFound n), st)) := by
  have hid : instId < st.nextId := hw.1 (name, instId) (lookupKey_some_mem hreg)
  have hst : srcT < st.clock := hw.2.1 (path, srcT) (lookupKey_some_mem hsrc)
  have hne : ¬(st.clock < srcT) := by omega
  have hlk : lookupKey path (eraseKey name st.registry) = none := by
    by_cases hpn : path = name
    · subst hpn; exact lookupKey_eraseKey_self _ _
    · rcases hclash with h1 | h2
      · exact absurd h1 hpn
      · rw [lookupKey_eraseKey_ne name path _ hpn]; exact h2
  have hrun : reloadPluginM env name st =
      (.ok (), { st with
        artifacts := (path, st.clock) :: eraseKey path (eraseKey path st.artifacts),
        registry := (name, st.nextId) :: eraseKey name st.registry,
        pluginPaths := (name, path) :: eraseKey name st.pluginPaths,
        nextId := st.nextId + 1,
        clock := st.clock + 1,
        events := st.events ++ [.shutdown name instId, .removeArtifact path,
          .removeArtifact path, .toolchain path, .openModule path] }) := by
    simp [reloadPluginM, unloadPluginM, recompilePluginM, compilePluginM,
      loadPluginM, loadPluginFromDirectoryM, compileWithCacheM, hpath, hreg,
      hco, hdl, hin, hlk, hsrc, hne, hponame, lookupKey, List.append_assoc]
  refine ⟨by rw [hrun], ?_, ?_, ?_, hid, ?_⟩
  · rw [hrun]
    simp [List.drop_left, List.countP_cons, isShutdownEv]
  · rw [hrun]
    refine ⟨[.shutdown name instId],
      [.removeArtifact path, .toolchain path, .openModule path], ?_, by simp⟩
    simp [List.drop_left]
  · rw [hrun]
    simp [lookupKey]
  · intro n hn
    simp [reloadPluginM, hn]

/-- C5 witness: reloading the loaded plugin "demo" in a concrete
well-formed state yields a fresh instance number 1 replacing 0, with one
shutdown and an artifact delete before the toolchain call. -/
theorem C5_reload_semantics_witness :
    (reloadPluginM {} "demo"
        { srcDirs := [("demo", 0)], artifacts := [("demo", 1)],
          registry := [("demo", 0)], pluginPaths := [("demo", "demo")],
          nextId := 1, clock := 2, events := [] }).1 = .ok () ∧
      lookupKey "demo" (reloadPluginM {} "demo"
        { srcDirs := [("demo", 0)], artifacts := [("demo", 1)],
          registry := [("demo", 0)], pluginPaths := [("demo", "demo")],
          nextId := 1, clock := 2, events := [] }).2.registry = some 1 :=
  ⟨(C5_reload_semantics {} "demo" "demo"
      { srcDirs := [("demo", 0)], artifacts := [("demo", 1)],
        registry := [("demo", 0)], pluginPaths := [("demo", "demo")],
        nextId := 1, clock := 2, events := [] } 0 0
      (by decide) rfl rfl rfl (Or.inl rfl) rfl rfl rfl rfl).1,
    (C5_reload_semantics {} "demo" "demo"
      { srcDirs := [("demo", 0)], artifacts := [("demo", 1)],
        registry := [("demo", 0)], pluginPaths := [("demo", "demo")],
        nextId := 1, clock := 2, events := [] } 0 0
      (by decide) rfl rfl rfl (Or.inl rfl) rfl rfl rfl rfl).2.2.2.1⟩

/-- C7: the pre-flight archive validation marks an accessible archive
invalid if and only if the path does not end in ".zip"
(case-insensitive), the size exceeds 100*1024*1024 bytes, or the file is
empty; an invalid archive makes `InstallPluginFromZip` fail before any
filesystem mutation (the state is returned untouched, so no extraction
is attempted); a 99 MB ".zip" archive passes. -/
theorem C7_preflight_validation :
    (∀ zipPath sz,
      (validateZipPlugin zipPath (some sz)).isValid = false ↔
        hasZipExt zipPath = false ∨ 100 * 1024 * 1024 < sz ∨ sz = 0) ∧
    (∀ env zipPath name statSize st,
      (validateZipPlugin zipPath statSize).isValid = false →
        installPluginFromZipM env zipPath name statSize st =
          (.error .invalidZip, st)) ∧
    (∀ zipPath, hasZipExt zipPath = true →
      (validateZipPlugin zipPath (some (99 * 1024 * 1024))).isValid = true) := by
  refine ⟨?_, ?_, ?_⟩
  · intro zipPath sz
    by_cases he : hasZipExt zipPath
    · by_cases hbig : 100 * 1024 * 1024 < sz
      · simp [validateZipPlugin, he, hbig]
      · by_cases hz : sz = 0
        · simp [validateZipPlugin, he, hbig, hz]
        · simp [validateZipPlugin, he, hbig, hz]
    · simp [validateZipPlugin, he, Bool.eq_false_iff.mpr he]
  · intro env zipPath name statSize st h
    simp [installPluginFromZipM, h]
  · intro zipPath he
    simp [validateZipPlugin, he]

/-- C7 witness: a 99 MB "demo.zip" validates; a ".txt" upload makes the
install fail with the validation error and an unchanged state. -/
theorem C7_preflight_validation_witness :
    (validateZipPlugin "demo.zip" (some (99 * 1024 * 1024))).isValid = true ∧
      installPluginFromZipM {} "demo.txt" "demo" (some 10) {} =
        (.error .invalidZip, {}) :=
  ⟨C7_preflight_validation.2.2 "demo.zip" (by decide),
    C7_preflight_validation.2.1 {} "demo.txt" "demo" (some 10) {} (by decide)⟩

/-- C8: on a host operating system outside the supported set (linux,
darwin, freebsd), `LoadPluginFromFile` fails immediately with the
platform error and performs no dynamic-load primitive and no filesystem
operation on the path. -/
theorem C8_platform_gate (goos path : String) (env : LoadEnv)
    (h : isPluginSupported goos = false) :
    (loadPluginFromFile goos path env).1 =
        .error ("plugins are not supported on " ++ goos) ∧
      (loadPluginFromFile goos path env).2 = [] := by
  constructor <;> simp [loadPluginFromFile, h]

/-- C8 witness: on "windows" the load fails with the platform error and
the operation list is empty. -/
theorem C8_platform_gate_witness :
    (loadPluginFromFile "windows" "p.so" {}).1 =
        .error ("plugins are not supported on " ++ "windows") ∧
      (loadPluginFromFile "windows" "p.so" {}).2 = [] :=
  C8_platform_gate "windows" "p.so" {} (by decide)

/-- C6: `HotReload` never completes.  It takes the exclusive lock and
then calls `UnloadPlugin` (with plugins registered) or `LoadPlugins`
(always), each of which re-acquires the same non-reentrant `m.mu`
exclusively, so the goroutine blocks forever: from any state in which
the caller does not already hold the lock, `HotReload` deadlocks instead
of returning with a refreshed registry. -/
theorem C6_hotreload_deadlock (loadable : List String) (st : LState)
    (h : st.lockHeld = false) : hotReloadL loadable st = none := by
  simp only [hotReloadL, h, Bool.false_eq_true, if_false]
  cases hreg : st.registry with
  | nil => simp [hreg, loadPluginsL, List.foldlM]
  | cons n rest => simp [hreg, unloadPluginL, List.foldlM]

/-- C6 witness: three registered plugins, two loadable directories —
the hot reload blocks forever (models as `none`). -/
theorem C6_hotreload_deadlock_witness :
    hotReloadL ["a", "b"] { lockHeld := false, registry := ["a", "b", "c"] } =
      none :=
  C6_hotreload_deadlock ["a", "b"]
    { lockHeld := false, registry := ["a", "b", "c"] } rfl

/-- C9 counterexample: `ReloadPlugin`'s lock trace on a loaded plugin is
not one full-duration exclusive critical section — it opens with a
shared-lock lookup, and the recompilation call sits outside any lock —
refuting the claim that every mutating Manager method holds the
exclusive lock for its entire duration. -/
theorem C9_locking_counterexample :
    serializedTrace (reloadTrace true true false true true) = false := by
  decide

/-- C9 (amended): `InstallPluginFromZip`, `LoadPlugin`, `LoadPlugins`
and `UnloadPlugin` each hold the exclusive lock for their entire
duration, external calls included; but `ReloadPlugin` and
`UninstallPlugin` are composites whose Loader/Compiler calls
(`RecompilePlugin`, `loader.UninstallPlugin`) run outside any lock, and
`HotReload` re-acquires the held lock and deadlocks, so structural
operations are not fully serialized as one critical section each. -/
theorem C9_locking_amended :
    (∀ v a i l d k, serializedTrace (installTrace v a i l d k) = true) ∧
      (∀ a l d, serializedTrace (loadPluginTrace a l d) = true) ∧
      (∀ n, serializedTrace (loadPluginsTrace n) = true) ∧
      (∀ f, serializedTrace (unloadTrace f) = true) ∧
      (∀ f r a l d, serializedTrace (reloadTrace f r a l d) = false) ∧
      (∀ f, serializedTrace (uninstallTrace f) = false) ∧
      (∀ loadable st, st.lockHeld = false → hotReloadL loadable st = none) := by
  refine ⟨?_, ?_, ?_, ?_, ?_, ?_, ?_⟩
  · intro v a i l d k
    cases v <;> cases a <;> cases i <;> cases l <;> cases d <;> cases k <;> decide
  · intro a l d
    cases a <;> cases l <;> cases d <;> decide
  · intro n
    have hshape : loadPluginsTrace n =
        .lockEx :: ((.callOut "LoadAllPlugins" ::
          List.replicate n (.callOut "Initialize")) ++ [.unlockEx]) := by
      simp [loadPluginsTrace]
    rw [hshape]
    simp only [serializedTrace]
    rw [List.dropLast_concat, List.getLast?_concat]
    simp [List.all_eq_true, List.mem_replicate, isCallOut]
  · intro f
    cases f <;> decide
  · intro f r a l d
    cases f <;> cases r <;> cases a <;> cases l <;> cases d <;> decide
  · intro f
    cases f <;> decide
  · intro loadable st h
    simp only [hotReloadL, h, Bool.false_eq_true, if_false]
    cases hreg : st.registry with
    | nil => simp [hreg, loadPluginsL, List.foldlM]
    | cons n rest => simp [hreg, unloadPluginL, List.foldlM]

/-- C9 (amended) witness: the fully-serialized check holds on a concrete
install trace and fails on a concrete uninstall trace. -/
theorem C9_locking_amended_witness :
    serializedTrace (installTrace true false true true true true) = true ∧
      serializedTrace (uninstallTrace true) = false :=
  ⟨C9_locking_amended.1 true false true true true true,
    C9_locking_amended.2.2.2.2.2.1 true⟩

/-- C10: `GetAllPlugins` returns a freshly allocated map whose entries
equal the registry's at the time of the call; inserting into or deleting
from the returned map leaves the Manager's registry cell unchanged. -/
theorem C10_getAllPlugins_copy (m : MgrRef)
    (h : m.registryRef < m.heap.cells.length) :
    (getAllPlugins m).1 ≠ m.registryRef ∧
      readRef (getAllPlugins m).2 (getAllPlugins m).1 =
        readRef m.heap m.registryRef ∧
      readRef (getAllPlugins m).2 m.registryRef = readRef m.heap m.registryRef ∧
      (∀ k v, readRef (mapInsertRef (getAllPlugins m).2 (getAllPlugins m).1 k v)
          m.registryRef = readRef m.heap m.registryRef) ∧
      (∀ k, readRef (mapDeleteRef (getAllPlugins m).2 (getAllPlugins m).1 k)
          m.registryRef = readRef m.heap m.registryRef) := by
  have hne : m.heap.cells.length ≠ m.registryRef := Nat.ne_of_gt h
  have hleft : ∀ l2 : List (List (String × Nat)),
      (m.heap.cells ++ l2)[m.registryRef]? = m.heap.cells[m.registryRef]? :=
    fun l2 => List.getElem?_append_left h
  have hset : ∀ (cs : List (List (String × Nat))) (content : List (String × Nat)),
      (cs.set m.heap.cells.length content)[m.registryRef]? = cs[m.registryRef]? :=
    fun cs content => List.getElem?_set_ne hne
  refine ⟨hne, ?_, ?_, ?_, ?_⟩
  · simp [getAllPlugins, allocCopy, readRef, List.getElem?_concat_length]
  · simp [getAllPlugins, allocCopy, readRef, hleft]
  · intro k v
    simp [getAllPlugins, allocCopy, mapInsertRef, writeRef, readRef, hset, hleft]
  · intro k
    simp [getAllPlugins, allocCopy, mapDeleteRef, writeRef, readRef, hset, hleft]

/-- C10 witness: a one-cell heap with the registry in cell 0. -/
theorem C10_getAllPlugins_copy_witness :
    (getAllPlugins { heap := { cells := [[("a", 0)]] }, registryRef := 0 }).1 ≠ 0 ∧
      readRef (mapInsertRef
          (getAllPlugins { heap := { cells := [[("a", 0)]] }, registryRef := 0 }).2
          (getAllPlugins { heap := { cells := [[("a", 0)]] }, registryRef := 0 }).1
          "b" 7) 0 = [("a", 0)] :=
  ⟨(C10_getAllPlugins_copy { heap := { cells := [[("a", 0)]] }, registryRef := 0 }
      (by decide)).1,
    (C10_getAllPlugins_copy { heap := { cells := [[("a", 0)]] }, registryRef := 0 }
      (by decide)).2.2.2.1 "b" 7⟩

end GoCms
